import Mathlib

/-!
Shallow embedding of the password-auditor scoring pipeline
(src/utils.py and src/auditor.py) and proofs about it.

Modelling conventions:
- Python strings are modelled as lists of characters (List Char); the
  character classes follow the ASCII ranges of the source regexes
  ([a-z], [A-Z], [0-9] and the complement [^a-zA-Z0-9]).
- Python floats are modelled as real numbers; the overflow-to-infinity
  behaviour of the crack-time estimator is modelled with ENNReal, where
  the top element stands for the float infinity.
- str.lower is modelled by ASCII lowering (Char.toLower).
-/

namespace PwAudit

/-- Test that the needle list is an initial segment of the hay list
(one comparison step of Python substring search). -/
def leadsWith : List Char → List Char → Bool
  | [], _ => true
  | _ :: _, [] => false
  | a :: as, b :: bs => a == b && leadsWith as bs

/-- Contiguous-substring test; models the Python expression
needle in hay on strings. -/
def occursIn (needle : List Char) : List Char → Bool
  | [] => needle.isEmpty
  | b :: hs2 => leadsWith needle (b :: hs2) || occursIn needle hs2

/-- The needle occurs contiguously inside the hay (specification side). -/
def ContiguousIn (needle hay : List Char) : Prop :=
  ∃ l r, hay = l ++ needle ++ r

theorem leadsWith_iff (n h : List Char) :
    leadsWith n h = true ↔ ∃ r, h = n ++ r := by
  induction n generalizing h with
  | nil => simp [leadsWith]
  | cons a as ih =>
    cases h with
    | nil => simp [leadsWith]
    | cons b bs =>
      simp only [leadsWith, Bool.and_eq_true, beq_iff_eq, ih, List.cons_append]
      constructor
      · rintro ⟨rfl, r, rfl⟩
        exact ⟨r, rfl⟩
      · rintro ⟨r, heq⟩
        cases heq
        exact ⟨rfl, r, rfl⟩

theorem occursIn_iff (n h : List Char) :
    occursIn n h = true ↔ ContiguousIn n h := by
  induction h with
  | nil =>
    simp only [occursIn, List.isEmpty_iff, ContiguousIn]
    constructor
    · rintro rfl
      exact ⟨[], [], rfl⟩
    · rintro ⟨l, r, heq⟩
      exact (List.append_eq_nil.mp ((List.append_eq_nil.mp heq.symm).1)).2
  | cons b hs ih =>
    simp only [occursIn, Bool.or_eq_true, leadsWith_iff, ih, ContiguousIn]
    constructor
    · rintro (⟨r, heq⟩ | ⟨l, r, heq⟩)
      · exact ⟨[], r, by simpa using heq⟩
      · exact ⟨b :: l, r, by simp [heq]⟩
    · rintro ⟨l, r, heq⟩
      cases l with
      | nil => exact Or.inl ⟨r, by simpa using heq⟩
      | cons x xs =>
        simp only [List.cons_append, List.cons.injEq] at heq
        exact Or.inr ⟨xs, r, heq.2⟩

/-! ## src/utils.py -/

/-- Character-class pool accumulated by estimate_entropy in src/utils.py:
re.search("[a-z]") adds 26, "[A-Z]" adds 26, "[0-9]" adds 10 and
"[^a-zA-Z0-9]" adds 32.  Char.isLower / isUpper / isDigit / isAlphanum are
exactly those ASCII ranges. -/
def pool (pw : List Char) : ℕ :=
  (if pw.any Char.isLower then 26 else 0) +
  (if pw.any Char.isUpper then 26 else 0) +
  (if pw.any Char.isDigit then 10 else 0) +
  (if pw.any (fun c => !c.isAlphanum) then 32 else 0)

/-- src/utils.py estimate_entropy, with floats modelled as reals:
0.0 for the empty string, otherwise len * log2(pool) when the pool is
positive and 0.0 when it is zero. -/
noncomputable def estimate_entropy (pw : List Char) : ℝ :=
  if pw = [] then 0
  else if 0 < pool pw then (pw.length : ℝ) * Real.logb 2 (pool pw)
  else 0

/-- Python re.search of the anchored pattern "^\d+$" without MULTILINE:
the caret matches only at the start of the string, and the dollar matches
at the very end or just before one final newline, so the pattern matches a
nonempty all-digits string optionally followed by a single trailing
newline.  The class \d is modelled as the ASCII digits. -/
def matchesOnlyDigits (s : List Char) : Bool :=
  (!s.isEmpty && s.all Char.isDigit) ||
  (s.getLast? == some (Char.ofNat 10) && !s.dropLast.isEmpty &&
    s.dropLast.all Char.isDigit)

/-- Python re.search of a case-insensitive literal pattern "(?i)word":
containment of the (lowercase ASCII) word in the lowered string. -/
def searchCaseless (word s : List Char) : Bool :=
  occursIn word (s.map Char.toLower)

/-- src/utils.py contains_common_pattern, iterating COMMON_PATTERNS. -/
def contains_common_pattern (s : List Char) : Bool :=
  matchesOnlyDigits s ||
  searchCaseless "password".toList s ||
  searchCaseless "qwerty".toList s

/-! ## src/auditor.py -/

/-- The fixed attacker-rate table ATTACKER_PROFILES of src/auditor.py, in
declaration order (Python dicts preserve insertion order). -/
def ATTACKER_PROFILES : List (String × ℕ) :=
  [("online_low", 10), ("online_high", 100), ("single_gpu", 10000000),
   ("gpu_rig", 1000000000), ("asic_farm", 10000000000)]

/-- Round half to even, the tie behaviour of Python rounding and float
formatting. -/
noncomputable def roundHalfEven (x : ℝ) : ℤ :=
  if Int.fract x = 1 / 2 then (if 2 ∣ ⌊x⌋ then ⌊x⌋ else ⌊x⌋ + 1)
  else round x

/-- Zero-padded three-digit fractional part for millisecond rendering. -/
def padMillis (n : ℕ) : String :=
  if n < 10 then "00" ++ Nat.repr n
  else if n < 100 then "0" ++ Nat.repr n
  else Nat.repr n

/-- Python f-string formatting with format spec .3f, for the nonnegative
values this program feeds it: three decimals, ties to even. -/
noncomputable def fmt3 (x : ℝ) : String :=
  let n := (roundHalfEven (x * 1000)).toNat
  Nat.repr (n / 1000) ++ "." ++ padMillis (n % 1000)

/-- Python " ".join on a list of strings. -/
def joinSpace : List String → String
  | [] => ""
  | [a] => a
  | a :: b :: t => a ++ " " ++ joinSpace (b :: t)

/-- The years/days/hours/minutes/seconds decomposition and rendering done
by seconds_to_readable in src/auditor.py for the truncated integer number
of seconds: successive division and remainder by 365*86400, 86400, 3600
and 60, rendering only nonzero components, with the seconds component
also rendered when every other part is absent. -/
def renderParts (s0 : ℕ) : String :=
  let years := s0 / 31536000
  let s1 := s0 % 31536000
  let days := s1 / 86400
  let s2 := s1 % 86400
  let hours := s2 / 3600
  let s3 := s2 % 3600
  let minutes := s3 / 60
  let seconds := s3 % 60
  let parts :=
    (if years ≠ 0 then [Nat.repr years ++ "y"] else []) ++
    (if days ≠ 0 then [Nat.repr days ++ "d"] else []) ++
    (if hours ≠ 0 then [Nat.repr hours ++ "h"] else []) ++
    (if minutes ≠ 0 then [Nat.repr minutes ++ "m"] else [])
  let parts2 :=
    if seconds ≠ 0 ∨ parts = [] then parts ++ [Nat.repr seconds ++ "s"]
    else parts
  joinSpace parts2

/-- src/auditor.py seconds_to_readable.  The float argument is modelled in
ENNReal (the top element is the float infinity); the int() truncation is
Nat.floor, since every argument fed to this function is nonnegative. -/
noncomputable def seconds_to_readable (sec : ENNReal) : String :=
  if sec = ⊤ then "∞"
  else if sec.toReal < 1 then fmt3 sec.toReal ++ " s"
  else renderParts (Nat.floor sec.toReal)

/-- src/auditor.py estimate_crack_time_seconds.  math.pow(2, e) is the
real power 2 ^ e; the two overflow conditions of the source (the float
result being inf, or exceeding the 1e308 ceiling) both collapse to the
real comparison with 10 ^ 308, after which the guarded division by the
rate is performed. -/
noncomputable def estimate_crack_time_seconds (entropy_bits rate : ℝ) : ENNReal :=
  if (2 : ℝ) ^ entropy_bits > 10 ^ 308 then ⊤
  else if rate > 0 then ENNReal.ofReal ((2 : ℝ) ^ entropy_bits / rate)
  else ⊤

/-- One value of the crack-times mapping built by estimate_crack_times. -/
structure CrackEntry where
  seconds : ENNReal
  display : String
  rate : ℕ

/-- src/auditor.py estimate_crack_times: one entry per attacker profile,
in declaration order. -/
noncomputable def estimate_crack_times (entropy_bits : ℝ) : List (String × CrackEntry) :=
  ATTACKER_PROFILES.map fun p =>
    let sec := estimate_crack_time_seconds entropy_bits (p.2 : ℝ)
    (p.1, { seconds := sec, display := seconds_to_readable sec, rate := p.2 })

/-- src/auditor.py KEYBOARD_PATTERNS. -/
def KEYBOARD_PATTERNS : List (List Char) :=
  ["qwerty".toList, "asdf".toList, "zxcv".toList, "12345".toList,
   "password".toList, "admin".toList, "letmein".toList]

/-- src/auditor.py is_sequential.  The Python window count
range(length - size + 1) is computed in ℤ; in ℕ it is written
length + 1 - size, which clamps to zero for strings shorter than the
window exactly as the Python range does. -/
def is_sequential (pw : List Char) : Bool :=
  let seq := "abcdefghijklmnopqrstuvwxyz".toList
  let num := "0123456789".toList
  let pw_low := pw.map Char.toLower
  [4, 3].any fun size =>
    (List.range (pw_low.length + 1 - size)).any fun i =>
      let chunk := (pw_low.drop i).take size
      occursIn chunk seq || occursIn chunk.reverse seq ||
      occursIn chunk num || occursIn chunk.reverse num

/-- The record returned by analyze_password in src/auditor.py. -/
structure AnalysisResult where
  password : List Char
  length : ℕ
  entropy_bits : ℝ
  is_common : Bool
  common_pattern : Bool
  keyboard_pattern : Bool
  sequential : Bool
  has_upper : Bool
  has_lower : Bool
  has_digit : Bool
  has_symbol : Bool
  strength : String
  recommendations : List String
  crack_times : List (String × CrackEntry)

/-- src/auditor.py round(ent, 2): two decimals, ties to even. -/
noncomputable def round2 (x : ℝ) : ℝ :=
  (roundHalfEven (x * 100) : ℝ) / 100

/-- src/auditor.py analyze_password: the full scoring pipeline for one
password against a loaded wordlist (a list of lowered strings).  The
inner quotes of the source recommendation texts are elided. -/
noncomputable def analyze_password (pw : List Char) (wordlist : List (List Char)) :
    AnalysisResult :=
  let ent := estimate_entropy pw
  let pw_lower := pw.map Char.toLower
  let isCommon := wordlist.contains pw_lower
  let hasSymbol := pw.any fun c => !c.isAlphanum
  let strength :=
    if pw.length < 8 ∨ isCommon = true ∨ ent < 28 then "Weak"
    else if ent < 50 then "Medium"
    else "Strong"
  let recommendations :=
    (if pw.length < 12 then ["Increase length to at least 12 characters."] else []) ++
    (if ent < 40 then
      ["Increase character diversity to raise entropy (mix upper/lower/digits/symbols)."]
     else []) ++
    (if isCommon = true then ["Avoid common passwords (in wordlists)."] else []) ++
    (if KEYBOARD_PATTERNS.any (fun pat => occursIn pat pw_lower) then
      ["Avoid keyboard patterns (e.g. qwerty, 12345)."]
     else []) ++
    (if is_sequential pw then ["Avoid sequential characters (e.g. abcd, 1234)."] else []) ++
    (if !hasSymbol then ["Consider adding at least one symbol to improve strength."] else [])
  { password := pw
    length := pw.length
    entropy_bits := round2 ent
    is_common := isCommon
    common_pattern := contains_common_pattern pw
    keyboard_pattern := KEYBOARD_PATTERNS.any fun pat => occursIn pat pw_lower
    sequential := is_sequential pw
    has_upper := pw.any Char.isUpper
    has_lower := pw.any Char.isLower
    has_digit := pw.any Char.isDigit
    has_symbol := hasSymbol
    strength := strength
    recommendations := recommendations
    crack_times := estimate_crack_times ent }

/-- The strength classification described by the specification: a pure
function of length, entropy bits and wordlist membership. -/
noncomputable def strengthLabel (length : ℕ) (ent : ℝ) (isCommon : Bool) : String :=
  if length < 8 ∨ isCommon = true ∨ ent < 28 then "Weak"
  else if ent < 50 then "Medium"
  else "Strong"

/-! ## Helper lemmas -/

/-- Every character belongs to one of the four classes the pool counts:
the last class is the complement of the first three. -/
theorem char_class_total (c : Char) :
    c.isLower = true ∨ c.isUpper = true ∨ c.isDigit = true ∨ (!c.isAlphanum) = true := by
  by_cases hl : c.isLower = true
  · exact Or.inl hl
  by_cases hu : c.isUpper = true
  · exact Or.inr (Or.inl hu)
  by_cases hd : c.isDigit = true
  · exact Or.inr (Or.inr (Or.inl hd))
  refine Or.inr (Or.inr (Or.inr ?_))
  simp only [Char.isAlphanum, Char.isAlpha, Bool.not_eq_true] at *
  simp [hl, hu, hd]

/-- A nonempty password always accumulates a pool of at least 10. -/
theorem pool_ge_ten {pw : List Char} (h : pw ≠ []) : 10 ≤ pool pw := by
  obtain ⟨c, rest, rfl⟩ := List.exists_cons_of_ne_nil h
  have hmem : c ∈ c :: rest := List.mem_cons_self c rest
  unfold pool
  rcases char_class_total c with hc | hc | hc | hc
  · have ha : (c :: rest).any Char.isLower = true := List.any_eq_true.mpr ⟨c, hmem, hc⟩
    rw [if_pos ha]
    split_ifs <;> omega
  · have ha : (c :: rest).any Char.isUpper = true := List.any_eq_true.mpr ⟨c, hmem, hc⟩
    rw [if_pos ha]
    split_ifs <;> omega
  · have ha : (c :: rest).any Char.isDigit = true := List.any_eq_true.mpr ⟨c, hmem, hc⟩
    rw [if_pos ha]
    split_ifs <;> omega
  · have ha : (c :: rest).any (fun x => !x.isAlphanum) = true :=
      List.any_eq_true.mpr ⟨c, hmem, hc⟩
    rw [if_pos ha]
    split_ifs <;> omega

theorem pool_pos {pw : List Char} (h : pw ≠ []) : 0 < pool pw :=
  lt_of_lt_of_le (by norm_num) (pool_ge_ten h)

theorem estimate_entropy_eq {pw : List Char} (h : pw ≠ []) :
    estimate_entropy pw = (pw.length : ℝ) * Real.logb 2 (pool pw) := by
  unfold estimate_entropy
  rw [if_neg h, if_pos (pool_pos h)]

theorem estimate_entropy_nonneg (pw : List Char) : 0 ≤ estimate_entropy pw := by
  by_cases h : pw = []
  · simp [estimate_entropy, h]
  · rw [estimate_entropy_eq h]
    apply mul_nonneg (Nat.cast_nonneg _)
    apply Real.logb_nonneg (by norm_num)
    have h10 : (10 : ℝ) ≤ (pool pw : ℝ) := by exact_mod_cast pool_ge_ten h
    linarith

theorem estimate_entropy_pos {pw : List Char} (h : pw ≠ []) :
    0 < estimate_entropy pw := by
  rw [estimate_entropy_eq h]
  apply mul_pos
  · exact_mod_cast List.length_pos.mpr h
  · apply Real.logb_pos (by norm_num)
    have h10 : (10 : ℝ) ≤ (pool pw : ℝ) := by exact_mod_cast pool_ge_ten h
    linarith

theorem roundHalfEven_zero : roundHalfEven 0 = 0 := by
  unfold roundHalfEven
  rw [if_neg (by rw [Int.fract_zero]; norm_num), round_zero]

theorem fmt3_zero : fmt3 0 = "0.000" := by
  unfold fmt3
  rw [zero_mul, roundHalfEven_zero]
  rfl

theorem readable_zero : seconds_to_readable 0 = "0.000 s" := by
  have h0 : (0 : ENNReal) ≠ ⊤ := by simp
  have ht : (0 : ENNReal).toReal = 0 := by simp
  unfold seconds_to_readable
  rw [if_neg h0, ht, if_pos (by norm_num : (0 : ℝ) < 1), fmt3_zero]
  rfl

theorem renderParts_ninety : renderParts 90 = "1m 30s" := by decide

theorem readable_ninety : seconds_to_readable 90 = "1m 30s" := by
  have h0 : (90 : ENNReal) ≠ ⊤ := by simp
  have ht : (90 : ENNReal).toReal = 90 := by simp
  unfold seconds_to_readable
  rw [if_neg h0, ht, if_neg (by norm_num : ¬((90 : ℝ) < 1))]
  have hf : Nat.floor (90 : ℝ) = 90 := by norm_num
  rw [hf, renderParts_ninety]

theorem readable_top : seconds_to_readable ⊤ = "∞" := by
  unfold seconds_to_readable
  rw [if_pos rfl]

/-- ASCII alphanumeric, written out class by class; provably equal to
Char.isAlphanum (next lemma), used inside decidable existentials. -/
def asciiAlnum (c : Char) : Bool := c.isLower || c.isUpper || c.isDigit

theorem asciiAlnum_eq (c : Char) : asciiAlnum c = c.isAlphanum := by
  simp only [asciiAlnum, Char.isAlphanum, Char.isAlpha]
  cases c.isUpper <;> cases c.isLower <;> simp

/-- The pool stated the way the specification words it: each present
character class contributes its fixed alphabet size. -/
def poolSpec (pw : List Char) : ℕ :=
  (if ∃ c ∈ pw, c.isLower = true then 26 else 0) +
  (if ∃ c ∈ pw, c.isUpper = true then 26 else 0) +
  (if ∃ c ∈ pw, c.isDigit = true then 10 else 0) +
  (if ∃ c ∈ pw, (!asciiAlnum c) = true then 32 else 0)

theorem pool_eq_poolSpec (pw : List Char) : pool pw = poolSpec pw := by
  simp [pool, poolSpec, List.any_eq_true, asciiAlnum_eq]

/-- A window of length 4 or 3 of the lowered string which, forward or
reversed, occurs contiguously in the reference alphabet string or in the
reference digit string. -/
def hasSeqWindow (pw : List Char) : Prop :=
  ∃ size i, (size = 4 ∨ size = 3) ∧
    i + size ≤ (pw.map Char.toLower).length ∧
    (ContiguousIn (((pw.map Char.toLower).drop i).take size)
        "abcdefghijklmnopqrstuvwxyz".toList ∨
     ContiguousIn (((pw.map Char.toLower).drop i).take size).reverse
        "abcdefghijklmnopqrstuvwxyz".toList ∨
     ContiguousIn (((pw.map Char.toLower).drop i).take size) "0123456789".toList ∨
     ContiguousIn (((pw.map Char.toLower).drop i).take size).reverse
        "0123456789".toList)

theorem is_sequential_iff (pw : List Char) :
    is_sequential pw = true ↔ hasSeqWindow pw := by
  unfold is_sequential hasSeqWindow
  simp only [List.any_eq_true, List.mem_range, List.mem_cons, List.not_mem_nil,
    or_false, Bool.or_eq_true, occursIn_iff]
  constructor
  · rintro ⟨size, hsize, i, hi, hor⟩
    refine ⟨size, i, ?_, ?_, by tauto⟩
    · tauto
    · rcases hsize with rfl | rfl <;> omega
  · rintro ⟨size, i, hsize, hle, hor⟩
    refine ⟨size, by tauto, i, ?_, by tauto⟩
    rcases hsize with rfl | rfl <;> omega

/-- The amended common-pattern characterization: entirely digits, or
entirely digits followed by one final newline, or containing password or
qwerty case-insensitively. -/
def commonPatternAmended (s : List Char) : Prop :=
  (s ≠ [] ∧ ∀ c ∈ s, c.isDigit = true) ∨
  (s.dropLast ≠ [] ∧ (∀ c ∈ s.dropLast, c.isDigit = true) ∧
    s.getLast? = some (Char.ofNat 10)) ∨
  ContiguousIn "password".toList (s.map Char.toLower) ∨
  ContiguousIn "qwerty".toList (s.map Char.toLower)

/-- The characterization exactly as the claim words it: entirely digits,
or containing password or qwerty case-insensitively. -/
def commonPatternClaim (s : List Char) : Prop :=
  (s ≠ [] ∧ ∀ c ∈ s, c.isDigit = true) ∨
  ContiguousIn "password".toList (s.map Char.toLower) ∨
  ContiguousIn "qwerty".toList (s.map Char.toLower)

/-! ## Claim theorems -/

/-- C1: for every password and wordlist the strength label of
analyze_password is a pure function of (length, entropy, is_common),
namely Weak when length < 8 or the password is common or the entropy is
below 28 bits, Medium when not Weak and the entropy is below 50 bits, and
Strong otherwise. -/
theorem claim_C1 : ∀ (pw : List Char) (wordlist : List (List Char)),
    (analyze_password pw wordlist).strength =
      strengthLabel (analyze_password pw wordlist).length (estimate_entropy pw)
        (analyze_password pw wordlist).is_common ∧
    (∀ (len : ℕ) (ent : ℝ) (c : Bool),
      ((len < 8 ∨ c = true ∨ ent < 28) → strengthLabel len ent c = "Weak") ∧
      (¬(len < 8 ∨ c = true ∨ ent < 28) → ent < 50 → strengthLabel len ent c = "Medium") ∧
      (¬(len < 8 ∨ c = true ∨ ent < 28) → ¬(ent < 50) →
        strengthLabel len ent c = "Strong")) := by
  intro pw wordlist
  constructor
  · rfl
  · intro len ent c
    refine ⟨fun h => ?_, fun h h50 => ?_, fun h h50 => ?_⟩
    · unfold strengthLabel
      rw [if_pos h]
    · unfold strengthLabel
      rw [if_neg h, if_pos h50]
    · unfold strengthLabel
      rw [if_neg h, if_neg h50]

theorem claim_C1_witness : strengthLabel 4 0 false = "Weak" :=
  ((claim_C1 [] []).2 4 0 false).1 (Or.inl (by norm_num))

/-- C2: estimate_entropy returns 0 on the empty string, 0 when the
accumulated pool is 0, and otherwise length * log2(pool), where the pool
gains 26 for a present lowercase letter, 26 for a present uppercase
letter, 10 for a present digit and 32 for a present non-alphanumeric
character. -/
theorem claim_C2 : ∀ pw : List Char,
    (pw = [] → estimate_entropy pw = 0) ∧
    (poolSpec pw = 0 → estimate_entropy pw = 0) ∧
    (pw ≠ [] → poolSpec pw ≠ 0 →
      estimate_entropy pw = (pw.length : ℝ) * Real.logb 2 (poolSpec pw)) := by
  intro pw
  refine ⟨fun h => ?_, fun h => ?_, fun h hp => ?_⟩
  · simp [estimate_entropy, h]
  · unfold estimate_entropy
    rw [pool_eq_poolSpec, h]
    simp
  · rw [estimate_entropy_eq h, pool_eq_poolSpec]

theorem claim_C2_witness :
    estimate_entropy "a".toList =
      (("a".toList.length : ℕ) : ℝ) * Real.logb 2 (poolSpec "a".toList) :=
  (claim_C2 "a".toList).2.2 (by decide) (by decide)

/-- C3: estimate_crack_time_seconds is total: when 2 ^ entropy_bits
exceeds the 1e308 ceiling (which covers the float overflow to infinity)
the answer is infinite, when the rate is zero or negative the answer is
infinite, and otherwise it is 2 ^ entropy_bits divided by the rate. -/
theorem claim_C3 : ∀ e rate : ℝ,
    ((2 : ℝ) ^ e > 10 ^ 308 → estimate_crack_time_seconds e rate = ⊤) ∧
    ((2 : ℝ) ^ e ≤ 10 ^ 308 → rate ≤ 0 → estimate_crack_time_seconds e rate = ⊤) ∧
    ((2 : ℝ) ^ e ≤ 10 ^ 308 → 0 < rate →
      estimate_crack_time_seconds e rate = ENNReal.ofReal ((2 : ℝ) ^ e / rate)) := by
  intro e rate
  refine ⟨fun h => ?_, fun h hr => ?_, fun h hr => ?_⟩
  · unfold estimate_crack_time_seconds
    rw [if_pos h]
  · unfold estimate_crack_time_seconds
    rw [if_neg (not_lt.mpr h), if_neg (not_lt.mpr hr)]
  · unfold estimate_crack_time_seconds
    rw [if_neg (not_lt.mpr h), if_pos hr]

theorem claim_C3_witness :
    estimate_crack_time_seconds 20 10 = ENNReal.ofReal ((2 : ℝ) ^ (20 : ℝ) / 10) := by
  apply (claim_C3 20 10).2.2
  · have h : (2 : ℝ) ^ (20 : ℝ) = 1048576 := by
      rw [show ((20 : ℝ)) = ((20 : ℕ) : ℝ) by norm_num, Real.rpow_natCast]
      norm_num
    rw [h]
    norm_num
  · norm_num

/-- C4 counterexample: seconds_to_readable maps 0 to "0.000 s" through
its sub-second branch, not to "0s" as the claim states. -/
theorem claim_C4_cex :
    seconds_to_readable 0 = "0.000 s" ∧ seconds_to_readable 0 ≠ "0s" := by
  refine ⟨readable_zero, ?_⟩
  rw [readable_zero]
  decide

/-- C4 (amended): seconds_to_readable maps 0 seconds to "0.000 s" (the
sub-second branch applies), 90 seconds to "1m 30s", and infinite seconds
to "∞"; whenever every decomposed component is zero the component
renderer yields "0s" and never an empty string. -/
theorem claim_C4 :
    seconds_to_readable 0 = "0.000 s" ∧
    seconds_to_readable 90 = "1m 30s" ∧
    seconds_to_readable ⊤ = "∞" ∧
    (∀ s0 : ℕ, s0 / 31536000 = 0 → s0 % 31536000 / 86400 = 0 →
      s0 % 31536000 % 86400 / 3600 = 0 → s0 % 31536000 % 86400 % 3600 / 60 = 0 →
      s0 % 31536000 % 86400 % 3600 % 60 = 0 →
      renderParts s0 = "0s" ∧ renderParts s0 ≠ "") := by
  refine ⟨readable_zero, readable_ninety, readable_top, ?_⟩
  intro s0 h1 h2 h3 h4 h5
  have hz : s0 = 0 := by omega
  subst hz
  exact ⟨by decide, by decide⟩

theorem claim_C4_witness : renderParts 0 = "0s" ∧ renderParts 0 ≠ "" :=
  claim_C4.2.2.2 0 rfl rfl rfl rfl rfl

/-- C5: is_sequential is true exactly when some window of length 4 or 3
of the lowered string, forward or reversed, occurs contiguously in the
alphabet or digit reference strings; it is false for passwords shorter
than 3 characters, true for abcd1234 and false for xk2p9q. -/
theorem claim_C5 :
    (∀ pw : List Char,
      (is_sequential pw = true ↔ hasSeqWindow pw) ∧
      (pw.length < 3 → is_sequential pw = false)) ∧
    is_sequential "abcd1234".toList = true ∧
    is_sequential "xk2p9q".toList = false := by
  refine ⟨fun pw => ⟨is_sequential_iff pw, fun hlen => ?_⟩, by decide, by decide⟩
  rcases h : is_sequential pw with _ | _
  · rfl
  · exfalso
    obtain ⟨size, i, hsize, hle, _⟩ := (is_sequential_iff pw).mp h
    rw [List.length_map] at hle
    rcases hsize with rfl | rfl <;> omega

theorem claim_C5_witness : is_sequential "ab".toList = false :=
  (claim_C5.1 "ab".toList).2 (by decide)

/-- C6 counterexample: a digits string with one trailing newline is
matched by the anchored all-digits regex, so contains_common_pattern is
true on it although the claim's characterization is false there. -/
theorem claim_C6_cex :
    contains_common_pattern ['1', Char.ofNat 10] = true ∧
    ¬ commonPatternClaim ['1', Char.ofNat 10] := by
  constructor
  · decide
  · rintro (⟨hne, hall⟩ | hp | hq)
    · exact absurd (hall (Char.ofNat 10) (by simp)) (by decide)
    · rw [← occursIn_iff] at hp
      exact absurd hp (by decide)
    · rw [← occursIn_iff] at hq
      exact absurd hq (by decide)

/-- C6 (amended): contains_common_pattern is true exactly when the string
is entirely digits, or is entirely digits followed by one final newline,
or contains password case-insensitively, or contains qwerty
case-insensitively; in particular it is true for 12345 and false for
Tr0ub4dor. -/
theorem claim_C6 :
    (∀ s : List Char, contains_common_pattern s = true ↔ commonPatternAmended s) ∧
    contains_common_pattern "12345".toList = true ∧
    contains_common_pattern "Tr0ub4dor".toList = false := by
  refine ⟨fun s => ?_, by decide, by decide⟩
  unfold contains_common_pattern matchesOnlyDigits searchCaseless commonPatternAmended
  simp only [Bool.or_eq_true, Bool.and_eq_true, occursIn_iff, beq_iff_eq,
    Bool.not_eq_true', List.isEmpty_eq_false, List.isEmpty_iff, List.all_eq_true]
  tauto

/-- C7: estimate_crack_times has exactly one entry per configured
attacker profile, in declaration order with the declared rates, and every
entry carries that profile's seconds, display string and rate. -/
theorem claim_C7 : ∀ e : ℝ,
    (estimate_crack_times e).map Prod.fst =
      ["online_low", "online_high", "single_gpu", "gpu_rig", "asic_farm"] ∧
    (estimate_crack_times e).map (fun p => p.2.rate) =
      [10, 100, 10000000, 1000000000, 10000000000] ∧
    ∀ p ∈ estimate_crack_times e,
      p.2.seconds = estimate_crack_time_seconds e (p.2.rate : ℝ) ∧
      p.2.display = seconds_to_readable p.2.seconds := by
  intro e
  refine ⟨rfl, rfl, ?_⟩
  intro p hp
  simp only [estimate_crack_times, ATTACKER_PROFILES, List.map_cons, List.map_nil,
    List.mem_cons, List.not_mem_nil, or_false] at hp
  rcases hp with rfl | rfl | rfl | rfl | rfl <;> exact ⟨rfl, rfl⟩

theorem claim_C7_witness :
    ({ seconds := estimate_crack_time_seconds 0 ((10 : ℕ) : ℝ),
       display := seconds_to_readable (estimate_crack_time_seconds 0 ((10 : ℕ) : ℝ)),
       rate := 10 } : CrackEntry).seconds =
      estimate_crack_time_seconds 0 ((10 : ℕ) : ℝ) ∧
    ({ seconds := estimate_crack_time_seconds 0 ((10 : ℕ) : ℝ),
       display := seconds_to_readable (estimate_crack_time_seconds 0 ((10 : ℕ) : ℝ)),
       rate := 10 } : CrackEntry).display =
      seconds_to_readable (estimate_crack_time_seconds 0 ((10 : ℕ) : ℝ)) :=
  (claim_C7 0).2.2
    (Prod.mk "online_low"
      ({ seconds := estimate_crack_time_seconds 0 ((10 : ℕ) : ℝ),
         display := seconds_to_readable (estimate_crack_time_seconds 0 ((10 : ℕ) : ℝ)),
         rate := 10 } : CrackEntry))
    (by simp [estimate_crack_times, ATTACKER_PROFILES])

/-- C8: the entropy estimate is nonnegative for every password, and for
the empty password analyze_password reports entropy 0 and all four
character-class flags false. -/
theorem claim_C8 : ∀ (pw : List Char) (wordlist : List (List Char)),
    0 ≤ estimate_entropy pw ∧
    (analyze_password [] wordlist).entropy_bits = 0 ∧
    (analyze_password [] wordlist).has_upper = false ∧
    (analyze_password [] wordlist).has_lower = false ∧
    (analyze_password [] wordlist).has_digit = false ∧
    (analyze_password [] wordlist).has_symbol = false := by
  intro pw wordlist
  refine ⟨estimate_entropy_nonneg pw, ?_, rfl, rfl, rfl, rfl⟩
  show round2 (estimate_entropy []) = 0
  rw [show estimate_entropy [] = 0 from by simp [estimate_entropy]]
  unfold round2
  rw [zero_mul, roundHalfEven_zero]
  norm_num

/-- C9: the scoring pipeline is deterministic: identical password and
wordlist inputs produce identical AnalysisResult values. -/
theorem claim_C9 : ∀ (pw1 pw2 : List Char) (wl1 wl2 : List (List Char)),
    pw1 = pw2 → wl1 = wl2 →
    analyze_password pw1 wl1 = analyze_password pw2 wl2 := by
  intro pw1 pw2 wl1 wl2 h1 h2
  rw [h1, h2]

theorem claim_C9_witness :
    analyze_password "abc".toList [] = analyze_password "abc".toList [] :=
  claim_C9 "abc".toList "abc".toList [] [] rfl rfl

/-- C10: for every nonempty password every character falls into one of
the four classes, the pool is at least 10 (so never 0) and the entropy
estimate is strictly positive. -/
theorem claim_C10 : ∀ pw : List Char, pw ≠ [] →
    (∀ c ∈ pw,
      c.isLower = true ∨ c.isUpper = true ∨ c.isDigit = true ∨ (!c.isAlphanum) = true) ∧
    10 ≤ pool pw ∧ pool pw ≠ 0 ∧ 0 < estimate_entropy pw := by
  intro pw h
  refine ⟨fun c _ => char_class_total c, pool_ge_ten h, ?_, estimate_entropy_pos h⟩
  have h10 := pool_ge_ten h
  omega

theorem claim_C10_witness : 0 < estimate_entropy "x".toList :=
  (claim_C10 "x".toList (by decide)).2.2.2

end PwAudit
